import Mathlib

/-!
# Verification of the napy root-finding library

A shallow embedding of `napy/root.py`: five one-dimensional root-finding
(and fixed-point) algorithms — bisection, false position, fixed-point
iteration, Newton's method, and the secant method.

Real numbers are modelled by `ℚ` (the algorithms only use field operations
and comparisons).  Python exceptions are modelled by the `Err` type and
`Except Err ℚ` results:

* the two eager `ValueError`s of `bisect` become `Err.invalidInterval`
  (the "malformed interval" message) and `Err.noSignChange` (the
  "opposite signs" message) — distinct messages, hence distinct values;
* Python's `ZeroDivisionError` on a float division by zero becomes
  `Err.zeroDivision` (division is modelled by the fallible `pyDiv`);
* the `ConvergenceFailure` raised on exhaustion becomes
  `Err.convergenceFailure pn fpn`, carrying the final estimate and the
  function value the message interpolates;
* reading the loop-local variable (`mid_point` / `point_n`) before any
  loop iteration has assigned it becomes `Err.unboundLocal`
  (Python's `UnboundLocalError`).  Each loop threads an `Option ℚ`
  recording the last value assigned to that variable.

`max_iteration` is an integer; `for _ in range(n)` runs `n.toNat` times.
-/

namespace Napy

/-- The failure modes of the library, modelling the Python exceptions. -/
inductive Err where
  | invalidInterval : Err
  | noSignChange : Err
  | zeroDivision : Err
  | unboundLocal : Err
  | convergenceFailure (point_n : ℚ) (f_point_n : ℚ) : Err
deriving DecidableEq, Repr

/-- Python float division: raises `ZeroDivisionError` when the denominator
is zero, otherwise returns the quotient. -/
def pyDiv (a b : ℚ) : Except Err ℚ :=
  if b = 0 then .error .zeroDivision else .ok (a / b)

/-- The midpoint `left_endpoint + (right_endpoint - left_endpoint) / 2`
of a bracket state (line 47 of `root.py`). -/
def midOf (s : ℚ × ℚ) : ℚ := s.1 + (s.2 - s.1) / 2

/-- The stopping test of `bisect` (line 50 of `root.py`):
`f(mid_point) == 0 or (right_endpoint - left_endpoint) / 2 < tolerance`. -/
def bisectStopP (f : ℚ → ℚ) (tol : ℚ) (s : ℚ × ℚ) : Prop :=
  f (midOf s) = 0 ∨ (s.2 - s.1) / 2 < tol

instance (f : ℚ → ℚ) (tol : ℚ) (s : ℚ × ℚ) : Decidable (bisectStopP f tol s) := by
  unfold bisectStopP; infer_instance

/-- The bracket update of `bisect` (lines 53–56 of `root.py`): if
`f(left_endpoint) * f(mid_point) > 0` then `left_endpoint = mid_point`
else `right_endpoint = mid_point`. -/
def bisectStep (f : ℚ → ℚ) (s : ℚ × ℚ) : ℚ × ℚ :=
  if f s.1 * f (midOf s) > 0 then (midOf s, s.2) else (s.1, midOf s)

/-- The state of the `bisect` bracket after `k` executed loop iterations. -/
def bisectTraj (f : ℚ → ℚ) (s : ℚ × ℚ) : ℕ → ℚ × ℚ
  | 0 => s
  | k + 1 => bisectStep f (bisectTraj f s k)

/-- The `for` loop of `bisect` (lines 46–61 of `root.py`).  `last` is the
value currently bound to the loop-local `mid_point` (`none` before the
first iteration).  On exhaustion the raise re-evaluates `f(mid_point)`. -/
def bisectLoop (f : ℚ → ℚ) (tol : ℚ) : ℕ → Option ℚ → ℚ × ℚ → Except Err ℚ
  | 0, last, _ =>
    match last with
    | none => .error .unboundLocal
    | some m => .error (.convergenceFailure m (f m))
  | fuel + 1, _, s =>
    if bisectStopP f tol s then .ok (midOf s)
    else bisectLoop f tol fuel (some (midOf s)) (bisectStep f s)

/-- `bisect` (lines 10–61 of `root.py`): eager validation of the interval
and of the sign change, then the bisection loop. -/
def bisect (f : ℚ → ℚ) (left_endpoint right_endpoint : ℚ)
    (max_iteration : ℤ) (tolerance : ℚ) : Except Err ℚ :=
  if right_endpoint ≤ left_endpoint then .error .invalidInterval
  else if f left_endpoint * f right_endpoint ≥ 0 then .error .noSignChange
  else bisectLoop f tolerance max_iteration.toNat none (left_endpoint, right_endpoint)

/-- The `for` loop of `false_position` (lines 92–106 of `root.py`).
State `s = (point_0, point_1)`; `last` is the loop-local `point_n`. -/
def falsePositionLoop (f : ℚ → ℚ) (tol : ℚ) : ℕ → Option ℚ → ℚ × ℚ → Except Err ℚ
  | 0, last, _ =>
    match last with
    | none => .error .unboundLocal
    | some pn => .error (.convergenceFailure pn (f pn))
  | fuel + 1, _, s =>
    match pyDiv (f s.2 * (s.2 - s.1)) (f s.2 - f s.1) with
    | .error e => .error e
    | .ok q =>
      let pn := s.2 - q
      if |pn - s.2| < tol then .ok pn
      else falsePositionLoop f tol fuel (some pn)
        (if f pn * f s.2 < 0 then (s.2, pn) else (s.1, pn))

/-- `false_position` (lines 64–106 of `root.py`). -/
def false_position (f : ℚ → ℚ) (point_0 point_1 : ℚ)
    (max_iteration : ℤ) (tolerance : ℚ) : Except Err ℚ :=
  falsePositionLoop f tolerance max_iteration.toNat none (point_0, point_1)

/-- The `for` loop of `secant` (lines 205–217 of `root.py`).
Identical to `falsePositionLoop` except that the update always shifts
both estimates: `point_0 = point_1; point_1 = point_n`. -/
def secantLoop (f : ℚ → ℚ) (tol : ℚ) : ℕ → Option ℚ → ℚ × ℚ → Except Err ℚ
  | 0, last, _ =>
    match last with
    | none => .error .unboundLocal
    | some pn => .error (.convergenceFailure pn (f pn))
  | fuel + 1, _, s =>
    match pyDiv (f s.2 * (s.2 - s.1)) (f s.2 - f s.1) with
    | .error e => .error e
    | .ok q =>
      let pn := s.2 - q
      if |pn - s.2| < tol then .ok pn
      else secantLoop f tol fuel (some pn) (s.2, pn)

/-- `secant` (lines 177–217 of `root.py`). -/
def secant (f : ℚ → ℚ) (point_0 point_1 : ℚ)
    (max_iteration : ℤ) (tolerance : ℚ) : Except Err ℚ :=
  secantLoop f tolerance max_iteration.toNat none (point_0, point_1)

/-- The `for` loop of `fixed_point` (lines 134–143 of `root.py`).  The
iterated map may itself raise (Newton's transformed map divides), so it
returns `Except Err ℚ`; a pure map `g` is passed as `fun x => .ok (g x)`.
On exhaustion the raise re-evaluates `f(point_n)`, which may itself raise. -/
def fixedPointLoop (g : ℚ → Except Err ℚ) (tol : ℚ) : ℕ → Option ℚ → ℚ → Except Err ℚ
  | 0, last, _ =>
    match last with
    | none => .error .unboundLocal
    | some pn =>
      match g pn with
      | .error e => .error e
      | .ok v => .error (.convergenceFailure pn v)
  | fuel + 1, _, p0 =>
    match g p0 with
    | .error e => .error e
    | .ok pn =>
      if |pn - p0| < tol then .ok pn
      else fixedPointLoop g tol fuel (some pn) pn

/-- `fixed_point` (lines 109–143 of `root.py`). -/
def fixed_point (g : ℚ → Except Err ℚ) (point_0 : ℚ)
    (max_iteration : ℤ) (tolerance : ℚ) : Except Err ℚ :=
  fixedPointLoop g tolerance max_iteration.toNat none point_0

/-- The transformed map `lambda p: p - f(p) / f_prime(p)` that `newton`
passes to `fixed_point` (line 173 of `root.py`), with Python division. -/
def newtonMap (f f_prime : ℚ → ℚ) (p : ℚ) : Except Err ℚ :=
  match pyDiv (f p) (f_prime p) with
  | .error e => .error e
  | .ok q => .ok (p - q)

/-- `newton` (lines 146–174 of `root.py`): fixed-point iteration applied
to the transformed map. -/
def newton (f f_prime : ℚ → ℚ) (point_0 : ℚ)
    (max_iteration : ℤ) (tolerance : ℚ) : Except Err ℚ :=
  fixed_point (newtonMap f f_prime) point_0 max_iteration tolerance

/-- The loop shape shared by `false_position` and `secant`: the secant
x-intercept iterate, the `|point_n - point_1| < tolerance` stopping test
returning `point_n`, and a pluggable state update `upd` applied to the
old state and the fresh iterate. -/
def twoPointLoop (upd : (ℚ → ℚ) → ℚ × ℚ → ℚ → ℚ × ℚ)
    (f : ℚ → ℚ) (tol : ℚ) : ℕ → Option ℚ → ℚ × ℚ → Except Err ℚ
  | 0, last, _ =>
    match last with
    | none => .error .unboundLocal
    | some pn => .error (.convergenceFailure pn (f pn))
  | fuel + 1, _, s =>
    match pyDiv (f s.2 * (s.2 - s.1)) (f s.2 - f s.1) with
    | .error e => .error e
    | .ok q =>
      let pn := s.2 - q
      if |pn - s.2| < tol then .ok pn
      else twoPointLoop upd f tol fuel (some pn) (upd f s pn)

/-- Entry point of the shared two-point loop shape. -/
def twoPointMethod (upd : (ℚ → ℚ) → ℚ × ℚ → ℚ → ℚ × ℚ)
    (f : ℚ → ℚ) (point_0 point_1 : ℚ)
    (max_iteration : ℤ) (tolerance : ℚ) : Except Err ℚ :=
  twoPointLoop upd f tolerance max_iteration.toNat none (point_0, point_1)

/-- Newton's method written as its own self-contained loop, following the
spec's words for §4.4: fixed-point iteration over `p ↦ p − f(p)/f′(p)`
with the same stopping rule and failure behaviour as `fixed_point`, and
`f′(p) = 0` a domain error.  Compared with `newton` for the refinement
claim. -/
def newtonDirectLoop (f f_prime : ℚ → ℚ) (tol : ℚ) : ℕ → Option ℚ → ℚ → Except Err ℚ
  | 0, last, _ =>
    match last with
    | none => .error .unboundLocal
    | some p =>
      if f_prime p = 0 then .error .zeroDivision
      else .error (.convergenceFailure p (p - f p / f_prime p))
  | fuel + 1, _, p0 =>
    if f_prime p0 = 0 then .error .zeroDivision
    else
      let pn := p0 - f p0 / f_prime p0
      if |pn - p0| < tol then .ok pn
      else newtonDirectLoop f f_prime tol fuel (some pn) pn

/-- Entry point of the self-contained Newton loop. -/
def newtonDirect (f f_prime : ℚ → ℚ) (point_0 : ℚ)
    (max_iteration : ℤ) (tolerance : ℚ) : Except Err ℚ :=
  newtonDirectLoop f f_prime tolerance max_iteration.toNat none point_0

/-- The sign of a rational number, as used in the spec's
`sign(f(left)) ≠ sign(f(right))` bracketing invariant. -/
def sgn (x : ℚ) : ℤ :=
  if x < 0 then -1 else if x = 0 then 0 else 1

/-- The identity map wrapped as an infallible iterated map, a concrete
input for exercising `fixed_point`. -/
def okId : ℚ → Except Err ℚ := fun x => .ok x

/-- A concrete iterated map exercising `fixed_point` re-runs:
`0 ↦ 1/2`, `1/2 ↦ 100`, `100 ↦ 50`, and every other point is fixed. -/
def rerunMap : ℚ → Except Err ℚ := fun x =>
  .ok (if x = 0 then 1/2 else if x = 1/2 then 100 else if x = 100 then 50 else x)

/-! ## Helper lemmas -/

theorem pyDiv_error {a b : ℚ} {e : Err} (h : pyDiv a b = .error e) :
    e = .zeroDivision ∧ b = 0 := by
  unfold pyDiv at h
  split at h
  · exact ⟨(Except.error.injEq _ _).mp h |>.symm, by assumption⟩
  · exact absurd h (by simp)

theorem pyDiv_ok {a b : ℚ} {q : ℚ} (h : pyDiv a b = .ok q) :
    b ≠ 0 ∧ q = a / b := by
  unfold pyDiv at h
  split at h
  · exact absurd h (by simp)
  · exact ⟨by assumption, ((Except.ok.injEq _ _).mp h).symm⟩

theorem midOf_mem {s : ℚ × ℚ} (h : s.1 < s.2) : s.1 < midOf s ∧ midOf s < s.2 := by
  unfold midOf
  constructor <;> linarith

theorem bisectStep_mem (f : ℚ → ℚ) {s : ℚ × ℚ} (h : s.1 < s.2) :
    (bisectStep f s).1 < (bisectStep f s).2
    ∧ s.1 ≤ (bisectStep f s).1 ∧ (bisectStep f s).2 ≤ s.2 := by
  obtain ⟨h1, h2⟩ := midOf_mem h
  unfold bisectStep
  split <;> refine ⟨?_, ?_, ?_⟩ <;> simp only <;> linarith

theorem bisectStep_bracket (f : ℚ → ℚ) {s : ℚ × ℚ}
    (hb : f s.1 * f s.2 < 0) (hm : f (midOf s) ≠ 0) :
    f (bisectStep f s).1 * f (bisectStep f s).2 < 0 := by
  have hl : f s.1 ≠ 0 := by
    intro h0
    rw [h0, zero_mul] at hb
    exact lt_irrefl 0 hb
  unfold bisectStep
  split
  · rename_i h
    simp only
    rcases mul_pos_iff.mp h with ⟨h1, h2⟩ | ⟨h1, h2⟩ <;>
      rcases mul_neg_iff.mp hb with ⟨g1, g2⟩ | ⟨g1, g2⟩ <;>
      first
        | exact mul_neg_iff.mpr (Or.inl ⟨h2, g2⟩)
        | exact mul_neg_iff.mpr (Or.inr ⟨h2, g2⟩)
        | exact absurd g1 (by linarith)
  · rename_i h
    simp only
    exact (not_lt.mp h).lt_of_ne (mul_ne_zero hl hm)

theorem sgn_eq_iff_mul_pos {x y : ℚ} (hx : x ≠ 0) (hy : y ≠ 0) :
    0 < x * y ↔ sgn x = sgn y := by
  unfold sgn
  constructor
  · intro hp
    rcases mul_pos_iff.mp hp with ⟨h1, h2⟩ | ⟨h1, h2⟩
    · rw [if_neg (not_lt.mpr h1.le), if_neg (ne_of_gt h1),
        if_neg (not_lt.mpr h2.le), if_neg (ne_of_gt h2)]
    · rw [if_pos h1, if_pos h2]
  · intro hs
    rcases hx.lt_or_lt with h | h <;> rcases hy.lt_or_lt with h' | h'
    · exact mul_pos_of_neg_of_neg h h'
    · rw [if_pos h, if_neg (not_lt.mpr h'.le), if_neg (ne_of_gt h')] at hs
      norm_num at hs
    · rw [if_neg (not_lt.mpr h.le), if_neg (ne_of_gt h), if_pos h'] at hs
      norm_num at hs
    · exact mul_pos h h'

theorem bisectTraj_shift (f : ℚ → ℚ) (s : ℚ × ℚ) :
    ∀ k, bisectTraj f (bisectStep f s) k = bisectTraj f s (k + 1)
  | 0 => rfl
  | k + 1 => by
    show bisectStep f (bisectTraj f (bisectStep f s) k) = bisectTraj f s (k + 2)
    rw [bisectTraj_shift f s k]
    rfl

theorem bisectLoop_ok_first_stop (f : ℚ → ℚ) (tol : ℚ) :
    ∀ (fuel : ℕ) (last : Option ℚ) (s : ℚ × ℚ) (x : ℚ),
      bisectLoop f tol fuel last s = .ok x →
      ∃ k, k < fuel ∧ bisectStopP f tol (bisectTraj f s k)
        ∧ (∀ j, j < k → ¬ bisectStopP f tol (bisectTraj f s j))
        ∧ x = midOf (bisectTraj f s k) := by
  intro fuel
  induction fuel with
  | zero =>
    intro last s x h
    unfold bisectLoop at h
    cases last <;> simp at h
  | succ n ih =>
    intro last s x h
    unfold bisectLoop at h
    by_cases hstop : bisectStopP f tol s
    · rw [if_pos hstop] at h
      refine ⟨0, Nat.succ_pos _, hstop, fun j hj => absurd hj (Nat.not_lt_zero j), ?_⟩
      exact ((Except.ok.injEq _ _).mp h).symm
    · rw [if_neg hstop] at h
      obtain ⟨k, hk, hs, hprev, hx⟩ := ih _ _ _ h
      rw [bisectTraj_shift] at hs hx
      refine ⟨k + 1, Nat.succ_lt_succ hk, hs, ?_, hx⟩
      intro j hj
      cases j with
      | zero => exact hstop
      | succ j' =>
        have := hprev j' (Nat.lt_of_succ_lt_succ hj)
        rwa [bisectTraj_shift] at this

theorem bisectLoop_ok_mem (f : ℚ → ℚ) (tol : ℚ) :
    ∀ (fuel : ℕ) (last : Option ℚ) (s : ℚ × ℚ) (x : ℚ), s.1 < s.2 →
      bisectLoop f tol fuel last s = .ok x → s.1 ≤ x ∧ x ≤ s.2 := by
  intro fuel
  induction fuel with
  | zero =>
    intro last s x _ h
    unfold bisectLoop at h
    cases last <;> simp at h
  | succ n ih =>
    intro last s x hlt h
    obtain ⟨hm1, hm2⟩ := midOf_mem hlt
    unfold bisectLoop at h
    by_cases hstop : bisectStopP f tol s
    · rw [if_pos hstop] at h
      have : midOf s = x := (Except.ok.injEq _ _).mp h
      exact ⟨this ▸ hm1.le, this ▸ hm2.le⟩
    · rw [if_neg hstop] at h
      obtain ⟨hss, hs1, hs2⟩ := bisectStep_mem f hlt
      obtain ⟨hx1, hx2⟩ := ih _ _ _ hss h
      exact ⟨hs1.trans hx1, hx2.trans hs2⟩

theorem newtonLoop_eq_direct (f f_prime : ℚ → ℚ) (tol : ℚ) :
    ∀ (fuel : ℕ) (last : Option ℚ) (p : ℚ),
      fixedPointLoop (newtonMap f f_prime) tol fuel last p
        = newtonDirectLoop f f_prime tol fuel last p := by
  intro fuel
  induction fuel with
  | zero =>
    intro last p
    cases last with
    | none => rfl
    | some m =>
      by_cases hd : f_prime m = 0 <;>
        simp [fixedPointLoop, newtonDirectLoop, newtonMap, pyDiv, hd]
  | succ k ih =>
    intro last p
    by_cases hd : f_prime p = 0 <;>
      simp [fixedPointLoop, newtonDirectLoop, newtonMap, pyDiv, hd, ih]

theorem falsePositionLoop_eq_twoPoint (f : ℚ → ℚ) (tol : ℚ) :
    ∀ (fuel : ℕ) (last : Option ℚ) (s : ℚ × ℚ),
      falsePositionLoop f tol fuel last s
        = twoPointLoop (fun g t pn => if g pn * g t.2 < 0 then (t.2, pn) else (t.1, pn))
            f tol fuel last s := by
  intro fuel
  induction fuel with
  | zero => intro last s; cases last <;> rfl
  | succ k ih =>
    intro last s
    cases hpd : pyDiv (f s.2 * (s.2 - s.1)) (f s.2 - f s.1) with
    | error e => simp [falsePositionLoop, twoPointLoop, hpd]
    | ok q => simp [falsePositionLoop, twoPointLoop, hpd, ih]

theorem secantLoop_eq_twoPoint (f : ℚ → ℚ) (tol : ℚ) :
    ∀ (fuel : ℕ) (last : Option ℚ) (s : ℚ × ℚ),
      secantLoop f tol fuel last s
        = twoPointLoop (fun _ t pn => (t.2, pn)) f tol fuel last s := by
  intro fuel
  induction fuel with
  | zero => intro last s; cases last <;> rfl
  | succ k ih =>
    intro last s
    cases hpd : pyDiv (f s.2 * (s.2 - s.1)) (f s.2 - f s.1) with
    | error e => simp [secantLoop, twoPointLoop, hpd]
    | ok q => simp [secantLoop, twoPointLoop, hpd, ih]

theorem bisectLoop_error_some (f : ℚ → ℚ) (tol : ℚ) :
    ∀ (fuel : ℕ) (m0 : ℚ) (s : ℚ × ℚ) (e : Err),
      bisectLoop f tol fuel (some m0) s = .error e →
      ∃ m, e = .convergenceFailure m (f m) := by
  intro fuel
  induction fuel with
  | zero =>
    intro m0 s e h
    unfold bisectLoop at h
    exact ⟨m0, ((Except.error.injEq _ _).mp h).symm⟩
  | succ k ih =>
    intro m0 s e h
    unfold bisectLoop at h
    by_cases hstop : bisectStopP f tol s
    · rw [if_pos hstop] at h
      simp at h
    · rw [if_neg hstop] at h
      exact ih _ _ _ h

theorem falsePositionLoop_error_some (f : ℚ → ℚ) (tol : ℚ) :
    ∀ (fuel : ℕ) (m0 : ℚ) (s : ℚ × ℚ) (e : Err),
      falsePositionLoop f tol fuel (some m0) s = .error e →
      e = .zeroDivision ∨ ∃ m, e = .convergenceFailure m (f m) := by
  intro fuel
  induction fuel with
  | zero =>
    intro m0 s e h
    unfold falsePositionLoop at h
    exact Or.inr ⟨m0, ((Except.error.injEq _ _).mp h).symm⟩
  | succ k ih =>
    intro m0 s e h
    unfold falsePositionLoop at h
    cases hpd : pyDiv (f s.2 * (s.2 - s.1)) (f s.2 - f s.1) with
    | error e' =>
      simp only [hpd] at h
      have he := (Except.error.injEq _ _).mp h
      exact Or.inl (he ▸ (pyDiv_error hpd).1)
    | ok q =>
      simp only [hpd] at h
      by_cases hst : |s.2 - q - s.2| < tol
      · rw [if_pos hst] at h
        simp at h
      · rw [if_neg hst] at h
        exact ih _ _ _ h

theorem secantLoop_error_some (f : ℚ → ℚ) (tol : ℚ) :
    ∀ (fuel : ℕ) (m0 : ℚ) (s : ℚ × ℚ) (e : Err),
      secantLoop f tol fuel (some m0) s = .error e →
      e = .zeroDivision ∨ ∃ m, e = .convergenceFailure m (f m) := by
  intro fuel
  induction fuel with
  | zero =>
    intro m0 s e h
    unfold secantLoop at h
    exact Or.inr ⟨m0, ((Except.error.injEq _ _).mp h).symm⟩
  | succ k ih =>
    intro m0 s e h
    unfold secantLoop at h
    cases hpd : pyDiv (f s.2 * (s.2 - s.1)) (f s.2 - f s.1) with
    | error e' =>
      simp only [hpd] at h
      have he := (Except.error.injEq _ _).mp h
      exact Or.inl (he ▸ (pyDiv_error hpd).1)
    | ok q =>
      simp only [hpd] at h
      by_cases hst : |s.2 - q - s.2| < tol
      · rw [if_pos hst] at h
        simp at h
      · rw [if_neg hst] at h
        exact ih _ _ _ h

theorem fixedPointLoop_pure_error_some (gg : ℚ → ℚ) (tol : ℚ) :
    ∀ (fuel : ℕ) (m0 : ℚ) (p : ℚ) (e : Err),
      fixedPointLoop (fun x => .ok (gg x)) tol fuel (some m0) p = .error e →
      ∃ m, e = .convergenceFailure m (gg m) := by
  intro fuel
  induction fuel with
  | zero =>
    intro m0 p e h
    simp only [fixedPointLoop] at h
    exact ⟨m0, ((Except.error.injEq _ _).mp h).symm⟩
  | succ k ih =>
    intro m0 p e h
    simp only [fixedPointLoop] at h
    by_cases hst : |gg p - p| < tol
    · rw [if_pos hst] at h
      simp at h
    · rw [if_neg hst] at h
      exact ih _ _ _ h

theorem newtonLoop_error_some (f f_prime : ℚ → ℚ) (tol : ℚ) :
    ∀ (fuel : ℕ) (m0 : ℚ) (p : ℚ) (e : Err),
      fixedPointLoop (newtonMap f f_prime) tol fuel (some m0) p = .error e →
      e = .zeroDivision
        ∨ ∃ m, f_prime m ≠ 0 ∧ e = .convergenceFailure m (m - f m / f_prime m) := by
  intro fuel
  induction fuel with
  | zero =>
    intro m0 p e h
    simp only [fixedPointLoop] at h
    cases hpd : pyDiv (f m0) (f_prime m0) with
    | error e' =>
      have hnm : newtonMap f f_prime m0 = .error e' := by simp [newtonMap, hpd]
      simp only [hnm] at h
      have he := (Except.error.injEq _ _).mp h
      exact Or.inl (he ▸ (pyDiv_error hpd).1)
    | ok q =>
      have hnm : newtonMap f f_prime m0 = .ok (m0 - q) := by simp [newtonMap, hpd]
      simp only [hnm] at h
      obtain ⟨hne, hq⟩ := pyDiv_ok hpd
      have he := (Except.error.injEq _ _).mp h
      exact Or.inr ⟨m0, hne, by rw [← he, hq]⟩
  | succ k ih =>
    intro m0 p e h
    simp only [fixedPointLoop] at h
    cases hpd : pyDiv (f p) (f_prime p) with
    | error e' =>
      have hnm : newtonMap f f_prime p = .error e' := by simp [newtonMap, hpd]
      simp only [hnm] at h
      have he := (Except.error.injEq _ _).mp h
      exact Or.inl (he ▸ (pyDiv_error hpd).1)
    | ok q =>
      have hnm : newtonMap f f_prime p = .ok (p - q) := by simp [newtonMap, hpd]
      simp only [hnm] at h
      by_cases hst : |p - q - p| < tol
      · rw [if_pos hst] at h
        simp at h
      · rw [if_neg hst] at h
        exact ih _ _ _ h

theorem fixed_point_first_iterate (g : ℚ → Except Err ℚ) (p0 tol v : ℚ) (n : ℤ)
    (hn : 1 ≤ n) (hg : g p0 = .ok v) (hv : |v - p0| < tol) :
    fixed_point g p0 n tol = .ok v := by
  obtain ⟨m, hm⟩ : ∃ m : ℕ, n.toNat = m + 1 := ⟨n.toNat - 1, by omega⟩
  unfold fixed_point
  rw [hm]
  simp only [fixedPointLoop, hg]
  rw [if_pos hv]

theorem fixedPointLoop_ok_image (g : ℚ → Except Err ℚ) (tol : ℚ) :
    ∀ (fuel : ℕ) (last : Option ℚ) (p r : ℚ),
      fixedPointLoop g tol fuel last p = .ok r → ∃ x, g x = .ok r := by
  intro fuel
  induction fuel with
  | zero =>
    intro last p r h
    cases last with
    | none => simp [fixedPointLoop] at h
    | some m =>
      simp only [fixedPointLoop] at h
      cases hg : g m with
      | error e => simp only [hg] at h; simp at h
      | ok v => simp only [hg] at h; simp at h
  | succ k ih =>
    intro last p r h
    simp only [fixedPointLoop] at h
    cases hg : g p with
    | error e => simp only [hg] at h; simp at h
    | ok pn =>
      simp only [hg] at h
      by_cases hst : |pn - p| < tol
      · rw [if_pos hst] at h
        exact ⟨p, by rw [hg, (Except.ok.injEq _ _).mp h]⟩
      · rw [if_neg hst] at h
        exact ih _ _ _ h

/-! ## Claims -/

/-- Claim C3: in `bisect`, the bracketing invariant
`sign(f(left_endpoint)) ≠ sign(f(right_endpoint))` (equivalently
`f(left_endpoint) * f(right_endpoint) < 0`) holds on entry to every
executed loop iteration and is re-established after every bracket update:
when `sign(f(left)) == sign(f(mid))` the update sets `left := mid`,
otherwise it sets `right := mid`. -/
theorem napy_bisect_bracket_invariant (f : ℚ → ℚ) (tol a b : ℚ)
    (hab : f a * f b < 0) :
    (∀ k, (∀ j, j < k → ¬ bisectStopP f tol (bisectTraj f (a, b) j)) →
      f (bisectTraj f (a, b) k).1 * f (bisectTraj f (a, b) k).2 < 0)
    ∧ (∀ s : ℚ × ℚ, f s.1 * f s.2 < 0 → f (midOf s) ≠ 0 →
      (sgn (f s.1) = sgn (f (midOf s)) → bisectStep f s = (midOf s, s.2))
      ∧ (sgn (f s.1) ≠ sgn (f (midOf s)) → bisectStep f s = (s.1, midOf s))
      ∧ f (bisectStep f s).1 * f (bisectStep f s).2 < 0) := by
  constructor
  · intro k
    induction k with
    | zero => intro _; exact hab
    | succ n ih =>
      intro hall
      have hinv := ih (fun j hj => hall j (hj.trans (Nat.lt_succ_self n)))
      have hstop := hall n (Nat.lt_succ_self n)
      have hm : f (midOf (bisectTraj f (a, b) n)) ≠ 0 := fun h0 => hstop (Or.inl h0)
      exact bisectStep_bracket f hinv hm
  · intro s hs hm
    have hl : f s.1 ≠ 0 := by
      intro h0
      rw [h0, zero_mul] at hs
      exact lt_irrefl 0 hs
    refine ⟨?_, ?_, bisectStep_bracket f hs hm⟩
    · intro hsgn
      unfold bisectStep
      rw [if_pos ((sgn_eq_iff_mul_pos hl hm).mpr hsgn)]
    · intro hsgn
      unfold bisectStep
      rw [if_neg (fun hp => hsgn ((sgn_eq_iff_mul_pos hl hm).mp hp))]

/-- Witness for C3 at `f = fun x => x`, bracket `(-1, 1)`, tolerance `1`. -/
theorem napy_bisect_bracket_invariant_witness :
    ((-1 : ℚ) * 1 < 0)
    ∧ ((∀ k, (∀ j, j < k →
          ¬ bisectStopP (fun x : ℚ => x) 1 (bisectTraj (fun x : ℚ => x) (-1, 1) j)) →
        (bisectTraj (fun x : ℚ => x) (-1, 1) k).1
          * (bisectTraj (fun x : ℚ => x) (-1, 1) k).2 < 0)
      ∧ (∀ s : ℚ × ℚ, s.1 * s.2 < 0 → midOf s ≠ 0 →
        (sgn s.1 = sgn (midOf s) → bisectStep (fun x : ℚ => x) s = (midOf s, s.2))
        ∧ (sgn s.1 ≠ sgn (midOf s) → bisectStep (fun x : ℚ => x) s = (s.1, midOf s))
        ∧ (bisectStep (fun x : ℚ => x) s).1 * (bisectStep (fun x : ℚ => x) s).2 < 0)) :=
  ⟨by norm_num, napy_bisect_bracket_invariant (fun x => x) 1 (-1) 1 (by norm_num)⟩

/-- Claim C4: `bisect` validates its preconditions eagerly, before any
iteration (the two equations hold for every `max_iteration`, including a
zero budget): if `right_endpoint ≤ left_endpoint` it fails with the
invalid-interval error; otherwise if `f(left_endpoint) * f(right_endpoint)
≥ 0` it fails with the no-sign-change error; the two failures are distinct
from each other and from every convergence failure. -/
theorem napy_bisect_eager_validation (f : ℚ → ℚ) (a b tol : ℚ) (n : ℤ) :
    (b ≤ a → bisect f a b n tol = .error .invalidInterval)
    ∧ (a < b → f a * f b ≥ 0 → bisect f a b n tol = .error .noSignChange)
    ∧ Err.invalidInterval ≠ Err.noSignChange
    ∧ (∀ m v, Err.invalidInterval ≠ Err.convergenceFailure m v)
    ∧ (∀ m v, Err.noSignChange ≠ Err.convergenceFailure m v) := by
  refine ⟨?_, ?_, by simp, fun m v => by simp, fun m v => by simp⟩
  · intro h
    unfold bisect
    rw [if_pos h]
  · intro h1 h2
    unfold bisect
    rw [if_neg (not_le.mpr h1), if_pos h2]

/-- Witness for C4: both validation failures at concrete inputs, with a
zero iteration budget, so the failures are indeed pre-loop. -/
theorem napy_bisect_eager_validation_witness :
    ((0 : ℚ) ≤ 1 ∧ bisect (fun x : ℚ => x) 1 0 0 1 = .error .invalidInterval)
    ∧ ((1 : ℚ) < 2 ∧ (1 : ℚ) * 2 ≥ 0
        ∧ bisect (fun x : ℚ => x) 1 2 0 1 = .error .noSignChange) :=
  ⟨⟨by norm_num, (napy_bisect_eager_validation (fun x => x) 1 0 1 0).1 (by norm_num)⟩,
   ⟨by norm_num, by norm_num,
    (napy_bisect_eager_validation (fun x => x) 1 2 1 0).2.1 (by norm_num) (by norm_num)⟩⟩

/-- Claim C5: when `bisect` returns a value under valid preconditions, that
value is the midpoint of the bracket at the first loop iteration whose
midpoint satisfies the stopping test (`f(mid) == 0` exactly, or the
half-width `(right - left) / 2 < tolerance`), and it lies between the
original endpoints. -/
theorem napy_bisect_first_stop (f : ℚ → ℚ) (a b tol : ℚ) (n : ℤ) (x : ℚ)
    (hab : a < b) (hsign : f a * f b < 0) (hn : 1 ≤ n)
    (hret : bisect f a b n tol = .ok x) :
    (∃ k, k < n.toNat ∧ bisectStopP f tol (bisectTraj f (a, b) k)
      ∧ (∀ j, j < k → ¬ bisectStopP f tol (bisectTraj f (a, b) j))
      ∧ x = midOf (bisectTraj f (a, b) k))
    ∧ a ≤ x ∧ x ≤ b := by
  unfold bisect at hret
  rw [if_neg (not_le.mpr hab), if_neg (not_le.mpr hsign)] at hret
  exact ⟨bisectLoop_ok_first_stop f tol _ _ _ _ hret,
    bisectLoop_ok_mem f tol _ _ _ _ hab hret⟩

/-- Witness for C5 at `f = fun x => x` on `(-1, 1)` with tolerance `1` and
budget `5`: the loop returns the very first midpoint `0`, a root. -/
theorem napy_bisect_first_stop_witness :
    ((-1 : ℚ) < 1 ∧ (-1 : ℚ) * 1 < 0 ∧ (1 : ℤ) ≤ 5
      ∧ bisect (fun x : ℚ => x) (-1) 1 5 1 = .ok 0)
    ∧ ((∃ k, k < (5 : ℤ).toNat
        ∧ bisectStopP (fun x : ℚ => x) 1 (bisectTraj (fun x : ℚ => x) (-1, 1) k)
        ∧ (∀ j, j < k → ¬ bisectStopP (fun x : ℚ => x) 1 (bisectTraj (fun x : ℚ => x) (-1, 1) j))
        ∧ (0 : ℚ) = midOf (bisectTraj (fun x : ℚ => x) (-1, 1) k))
      ∧ (-1 : ℚ) ≤ 0 ∧ (0 : ℚ) ≤ 1) := by
  have h4 : bisect (fun x : ℚ => x) (-1) 1 5 1 = .ok 0 := by
    norm_num [bisect, bisectLoop, bisectStopP, midOf, Int.toNat]
  exact ⟨⟨by norm_num, by norm_num, by norm_num, h4⟩,
    napy_bisect_first_stop (fun x => x) (-1) 1 1 5 0
      (by norm_num) (by norm_num) (by norm_num) h4⟩

/-- Claim C1: whenever an iteration's denominator is zero
(`f(point_1) - f(point_0) == 0` for `false_position` and `secant`,
`f_prime(p) == 0` for `newton`), the call fails at that very iteration
with the distinct zero-division error (the failure mode the spec's error
taxonomy calls `DomainError`, realised as Python's `ZeroDivisionError`),
rather than returning a value, a `NaN`/`Inf`, or any other failure.
Stated both at the loop level (for an arbitrary iteration's state, with
fuel remaining) and for the whole call when the first iteration divides
by zero. -/
theorem napy_zero_denominator (f f_prime : ℚ → ℚ) (tol : ℚ) (fuel : ℕ)
    (last : Option ℚ) (p0 p1 q0 : ℚ) (n : ℤ)
    (hden : f p1 - f p0 = 0) (hder : f_prime q0 = 0) (hn : 1 ≤ n) :
    falsePositionLoop f tol (fuel + 1) last (p0, p1) = .error .zeroDivision
    ∧ secantLoop f tol (fuel + 1) last (p0, p1) = .error .zeroDivision
    ∧ fixedPointLoop (newtonMap f f_prime) tol (fuel + 1) last q0 = .error .zeroDivision
    ∧ false_position f p0 p1 n tol = .error .zeroDivision
    ∧ secant f p0 p1 n tol = .error .zeroDivision
    ∧ newton f f_prime q0 n tol = .error .zeroDivision := by
  obtain ⟨m, hm⟩ : ∃ m : ℕ, n.toNat = m + 1 := ⟨n.toNat - 1, by omega⟩
  have hnm : newtonMap f f_prime q0 = .error .zeroDivision := by
    unfold newtonMap pyDiv
    rw [if_pos hder]
  have hfp : ∀ (fu : ℕ) (la : Option ℚ),
      falsePositionLoop f tol (fu + 1) la (p0, p1) = .error .zeroDivision := by
    intro fu la
    simp [falsePositionLoop, pyDiv, hden]
  have hsec : ∀ (fu : ℕ) (la : Option ℚ),
      secantLoop f tol (fu + 1) la (p0, p1) = .error .zeroDivision := by
    intro fu la
    simp [secantLoop, pyDiv, hden]
  have hnew : ∀ (fu : ℕ) (la : Option ℚ),
      fixedPointLoop (newtonMap f f_prime) tol (fu + 1) la q0 = .error .zeroDivision := by
    intro fu la
    simp [fixedPointLoop, hnm]
  refine ⟨hfp fuel last, hsec fuel last, hnew fuel last, ?_, ?_, ?_⟩
  · unfold false_position
    rw [hm]
    exact hfp m none
  · unfold secant
    rw [hm]
    exact hsec m none
  · unfold newton fixed_point
    rw [hm]
    exact hnew m none

/-- Witness for C1 with the constant function `1` (zero secant slope
everywhere) and a vanishing derivative at the seed. -/
theorem napy_zero_denominator_witness :
    ((1 : ℚ) - 1 = 0 ∧ (0 : ℚ) = 0 ∧ (1 : ℤ) ≤ 5)
    ∧ (falsePositionLoop (fun _ : ℚ => 1) 1 3 none (0, 1) = .error .zeroDivision
      ∧ secantLoop (fun _ : ℚ => 1) 1 3 none (0, 1) = .error .zeroDivision
      ∧ fixedPointLoop (newtonMap (fun _ : ℚ => 1) (fun _ : ℚ => 0)) 1 3 none 0 = .error .zeroDivision
      ∧ false_position (fun _ : ℚ => 1) 0 1 5 1 = .error .zeroDivision
      ∧ secant (fun _ : ℚ => 1) 0 1 5 1 = .error .zeroDivision
      ∧ newton (fun _ : ℚ => 1) (fun _ : ℚ => 0) 0 5 1 = .error .zeroDivision) :=
  ⟨⟨by norm_num, rfl, by norm_num⟩,
   napy_zero_denominator (fun _ => 1) (fun _ => 0) 1 2 none 0 1 0 5
     (by norm_num) rfl (by norm_num)⟩

/-- Claim C2: `newton(f, f_prime, point_0, max_iteration, tolerance)` is
extensionally equal to `fixed_point(g, point_0, max_iteration, tolerance)`
with `g(p) = p - f(p)/f_prime(p)` (with Python division, so `f_prime(p) = 0`
raises): same value when it returns and the same failure when it fails.
The second conjunct compares `newton` with `newtonDirect`, a self-contained
loop written from the spec's description of §4.4, so the equality is not a
restatement of `newton`'s definition. -/
theorem napy_newton_is_fixed_point (f f_prime : ℚ → ℚ) (point_0 tol : ℚ) (n : ℤ) :
    newton f f_prime point_0 n tol
      = fixed_point (fun p => match pyDiv (f p) (f_prime p) with
          | .error e => .error e
          | .ok q => .ok (p - q)) point_0 n tol
    ∧ newton f f_prime point_0 n tol = newtonDirect f f_prime point_0 n tol :=
  ⟨rfl, newtonLoop_eq_direct f f_prime tol n.toNat none point_0⟩

/-- Claim C6: `false_position` and `secant` are the same loop — the same
secant x-intercept iterate `point_n = point_1 - f(point_1)(point_1 -
point_0)/(f(point_1) - f(point_0))` and the same stopping test
`|point_n - point_1| < tolerance` returning `point_n` — differing only in
the state update plugged into `twoPointLoop`: `false_position` sets
`point_0 := point_1` only when `f(point_n) * f(point_1) < 0` and always
sets `point_1 := point_n`, while `secant` unconditionally sets
`point_0 := point_1` and `point_1 := point_n`. -/
theorem napy_false_position_secant_shape (f : ℚ → ℚ) (point_0 point_1 tol : ℚ) (n : ℤ) :
    false_position f point_0 point_1 n tol
      = twoPointMethod (fun g t pn => if g pn * g t.2 < 0 then (t.2, pn) else (t.1, pn))
          f point_0 point_1 n tol
    ∧ secant f point_0 point_1 n tol
      = twoPointMethod (fun _ t pn => (t.2, pn)) f point_0 point_1 n tol :=
  ⟨falsePositionLoop_eq_twoPoint f tol n.toNat none (point_0, point_1),
   secantLoop_eq_twoPoint f tol n.toNat none (point_0, point_1)⟩

/-- Counterexample to C7 as stated: `newton` exhausts its budget on a
divergent run (`f = id`, `f' = -1`, so the transformed map doubles) with
no precondition or domain failure, and the raised convergence failure
carries `8 = 4 - f(4)/f'(4)`, the transformed map's value at the final
estimate `4` — not the function value `f(4) = 4` the claim asserts. -/
theorem napy_newton_payload_counterexample :
    newton (fun x : ℚ => x) (fun _ : ℚ => -1) 1 2 1
      = .error (.convergenceFailure 4 8)
    ∧ (fun x : ℚ => x) 4 = 4
    ∧ (8 : ℚ) ≠ 4
    ∧ Err.convergenceFailure 4 8 ≠ .convergenceFailure 4 ((fun x : ℚ => x) 4) := by
  refine ⟨?_, rfl, by norm_num, by norm_num⟩
  norm_num [newton, fixed_point, fixedPointLoop, newtonMap, pyDiv, Int.toNat,
    abs_of_nonneg, abs_of_nonpos]

/-- Claim C7 (amended for `newton`): with a positive iteration budget,
every failure of each algorithm beyond the validation and zero-division
errors is a convergence failure carrying the final estimate and the value
of the iterated function at it — `f(point_n)` for `bisect`,
`false_position` and `secant`, `g(point_n)` for `fixed_point` on a pure
map `g`, and for `newton` the transformed map's value
`point_n - f(point_n)/f'(point_n)` (not `f(point_n)`).  Moreover an
exhausted budget (zero fuel with the loop variable bound) always raises
exactly that convergence failure, never returning an estimate. -/
theorem napy_convergence_failure_payload (f f_prime gg : ℚ → ℚ)
    (a b p0 p1 q0 tol : ℚ) (n : ℤ) (hn : 1 ≤ n) :
    (∀ e, bisect f a b n tol = .error e →
      e = .invalidInterval ∨ e = .noSignChange ∨ ∃ m, e = .convergenceFailure m (f m))
    ∧ (∀ e, false_position f p0 p1 n tol = .error e →
      e = .zeroDivision ∨ ∃ m, e = .convergenceFailure m (f m))
    ∧ (∀ e, secant f p0 p1 n tol = .error e →
      e = .zeroDivision ∨ ∃ m, e = .convergenceFailure m (f m))
    ∧ (∀ e, fixed_point (fun x => .ok (gg x)) q0 n tol = .error e →
      ∃ m, e = .convergenceFailure m (gg m))
    ∧ (∀ e, newton f f_prime q0 n tol = .error e →
      e = .zeroDivision
        ∨ ∃ m, f_prime m ≠ 0 ∧ e = .convergenceFailure m (m - f m / f_prime m))
    ∧ (∀ (m0 : ℚ) (s : ℚ × ℚ),
      bisectLoop f tol 0 (some m0) s = .error (.convergenceFailure m0 (f m0)))
    ∧ (∀ (m0 : ℚ) (s : ℚ × ℚ),
      falsePositionLoop f tol 0 (some m0) s = .error (.convergenceFailure m0 (f m0)))
    ∧ (∀ (m0 : ℚ) (s : ℚ × ℚ),
      secantLoop f tol 0 (some m0) s = .error (.convergenceFailure m0 (f m0)))
    ∧ (∀ (m0 p : ℚ),
      fixedPointLoop (fun x => .ok (gg x)) tol 0 (some m0) p
        = .error (.convergenceFailure m0 (gg m0)))
    ∧ (∀ (m0 p : ℚ), f_prime m0 ≠ 0 →
      fixedPointLoop (newtonMap f f_prime) tol 0 (some m0) p
        = .error (.convergenceFailure m0 (m0 - f m0 / f_prime m0))) := by
  obtain ⟨m, hm⟩ : ∃ m : ℕ, n.toNat = m + 1 := ⟨n.toNat - 1, by omega⟩
  refine ⟨?_, ?_, ?_, ?_, ?_, fun m0 s => rfl, fun m0 s => rfl, fun m0 s => rfl,
    fun m0 p => rfl, ?_⟩
  · intro e h
    unfold bisect at h
    by_cases h1 : b ≤ a
    · rw [if_pos h1] at h
      exact Or.inl ((Except.error.injEq _ _).mp h).symm
    · rw [if_neg h1] at h
      by_cases h2 : f a * f b ≥ 0
      · rw [if_pos h2] at h
        exact Or.inr (Or.inl ((Except.error.injEq _ _).mp h).symm)
      · rw [if_neg h2] at h
        rw [hm] at h
        unfold bisectLoop at h
        by_cases hstop : bisectStopP f tol (a, b)
        · rw [if_pos hstop] at h
          simp at h
        · rw [if_neg hstop] at h
          exact Or.inr (Or.inr (bisectLoop_error_some f tol m _ _ e h))
  · intro e h
    unfold false_position at h
    rw [hm] at h
    simp only [falsePositionLoop] at h
    cases hpd : pyDiv (f p1 * (p1 - p0)) (f p1 - f p0) with
    | error e' =>
      simp only [hpd] at h
      have he := (Except.error.injEq _ _).mp h
      exact Or.inl (he ▸ (pyDiv_error hpd).1)
    | ok q =>
      simp only [hpd] at h
      by_cases hst : |p1 - q - p1| < tol
      · rw [if_pos hst] at h
        simp at h
      · rw [if_neg hst] at h
        exact falsePositionLoop_error_some f tol m _ _ e h
  · intro e h
    unfold secant at h
    rw [hm] at h
    simp only [secantLoop] at h
    cases hpd : pyDiv (f p1 * (p1 - p0)) (f p1 - f p0) with
    | error e' =>
      simp only [hpd] at h
      have he := (Except.error.injEq _ _).mp h
      exact Or.inl (he ▸ (pyDiv_error hpd).1)
    | ok q =>
      simp only [hpd] at h
      by_cases hst : |p1 - q - p1| < tol
      · rw [if_pos hst] at h
        simp at h
      · rw [if_neg hst] at h
        exact secantLoop_error_some f tol m _ _ e h
  · intro e h
    unfold fixed_point at h
    rw [hm] at h
    simp only [fixedPointLoop] at h
    by_cases hst : |gg q0 - q0| < tol
    · rw [if_pos hst] at h
      simp at h
    · rw [if_neg hst] at h
      exact fixedPointLoop_pure_error_some gg tol m _ _ e h
  · intro e h
    unfold newton fixed_point at h
    rw [hm] at h
    simp only [fixedPointLoop] at h
    cases hpd : pyDiv (f q0) (f_prime q0) with
    | error e' =>
      have hnm : newtonMap f f_prime q0 = .error e' := by simp [newtonMap, hpd]
      simp only [hnm] at h
      have he := (Except.error.injEq _ _).mp h
      exact Or.inl (he ▸ (pyDiv_error hpd).1)
    | ok q =>
      have hnm : newtonMap f f_prime q0 = .ok (q0 - q) := by simp [newtonMap, hpd]
      simp only [hnm] at h
      by_cases hst : |q0 - q - q0| < tol
      · rw [if_pos hst] at h
        simp at h
      · rw [if_neg hst] at h
        exact newtonLoop_error_some f f_prime tol m _ _ e h
  · intro m0 p hne
    have hnm : newtonMap f f_prime m0 = .ok (m0 - f m0 / f_prime m0) := by
      simp [newtonMap, pyDiv, hne]
    simp only [fixedPointLoop, hnm]

/-- Witness for C7 (amended) at `f = f' = g = fun x => x` on concrete
seeds with budget `1`. -/
theorem napy_convergence_failure_payload_witness :
    (1 : ℤ) ≤ 1
    ∧ ((∀ e, bisect (fun x : ℚ => x) (-1) 1 1 1 = .error e →
        e = .invalidInterval ∨ e = .noSignChange ∨ ∃ m, e = .convergenceFailure m m)
      ∧ (∀ e, false_position (fun x : ℚ => x) 0 8 1 1 = .error e →
        e = .zeroDivision ∨ ∃ m, e = .convergenceFailure m m)
      ∧ (∀ e, secant (fun x : ℚ => x) 0 8 1 1 = .error e →
        e = .zeroDivision ∨ ∃ m, e = .convergenceFailure m m)
      ∧ (∀ e, fixed_point (fun x : ℚ => .ok x) 0 1 1 = .error e →
        ∃ m, e = .convergenceFailure m m)
      ∧ (∀ e, newton (fun x : ℚ => x) (fun x : ℚ => x) 0 1 1 = .error e →
        e = .zeroDivision ∨ ∃ m, m ≠ 0 ∧ e = .convergenceFailure m (m - m / m))
      ∧ (∀ (m0 : ℚ) (s : ℚ × ℚ),
        bisectLoop (fun x : ℚ => x) 1 0 (some m0) s = .error (.convergenceFailure m0 m0))
      ∧ (∀ (m0 : ℚ) (s : ℚ × ℚ),
        falsePositionLoop (fun x : ℚ => x) 1 0 (some m0) s
          = .error (.convergenceFailure m0 m0))
      ∧ (∀ (m0 : ℚ) (s : ℚ × ℚ),
        secantLoop (fun x : ℚ => x) 1 0 (some m0) s = .error (.convergenceFailure m0 m0))
      ∧ (∀ (m0 p : ℚ),
        fixedPointLoop (fun x : ℚ => .ok x) 1 0 (some m0) p
          = .error (.convergenceFailure m0 m0))
      ∧ (∀ (m0 p : ℚ), m0 ≠ 0 →
        fixedPointLoop (newtonMap (fun x : ℚ => x) (fun x : ℚ => x)) 1 0 (some m0) p
          = .error (.convergenceFailure m0 (m0 - m0 / m0)))) :=
  ⟨by norm_num,
   napy_convergence_failure_payload (fun x => x) (fun x => x) (fun x => x)
     (-1) 1 0 8 0 1 1 (by norm_num)⟩

/-- Counterexample to C8 as stated: `fixed_point rerunMap 0` converges to
`1/2`, but re-running from the converged result `1/2` does not converge
within one iteration — the first iterate `100` is not within tolerance of
the seed, and the re-run eventually returns `50`, not `100`. -/
theorem napy_rerun_counterexample :
    fixed_point rerunMap 0 4 1 = .ok (1 / 2)
    ∧ rerunMap (1 / 2) = .ok 100
    ∧ ¬ (|(100 : ℚ) - 1 / 2| < 1)
    ∧ fixed_point rerunMap (1 / 2) 4 1 = .ok 50
    ∧ (50 : ℚ) ≠ 100 := by
  refine ⟨?_, by norm_num [rerunMap], ?_, ?_, by norm_num⟩
  · norm_num [fixed_point, fixedPointLoop, rerunMap, Int.toNat, abs_of_nonneg, abs_of_nonpos]
  · norm_num [abs_of_nonneg]
  · norm_num [fixed_point, fixedPointLoop, rerunMap, Int.toNat, abs_of_nonneg, abs_of_nonpos]

/-- Claim C8 (amended): re-running `fixed_point` from a converged result
`r` converges within one iteration and returns the first iterate `g(r)`,
provided that first iterate is itself within tolerance of `r`
(`|g(r) − r| < tolerance`) — a hypothesis the original claim omitted and
which the re-run does not inherit from the first run. -/
theorem napy_rerun_within_tolerance (g : ℚ → Except Err ℚ) (p0 tol r v : ℚ)
    (n n' : ℤ) (_hrun : fixed_point g p0 n tol = .ok r) (hg : g r = .ok v)
    (hv : |v - r| < tol) (hn' : 1 ≤ n') :
    fixed_point g r n' tol = .ok v :=
  fixed_point_first_iterate g r tol v n' hn' hg hv

/-- Witness for C8 (amended) with the identity map: the first run returns
`0`, and the re-run from `0` returns `g(0) = 0` in one iteration. -/
theorem napy_rerun_within_tolerance_witness :
    (fixed_point okId 0 4 1 = .ok 0 ∧ okId 0 = .ok 0
      ∧ |(0 : ℚ) - 0| < 1 ∧ (1 : ℤ) ≤ 3)
    ∧ fixed_point okId 0 3 1 = .ok 0 := by
  have h1 : fixed_point okId 0 4 1 = .ok 0 := by
    norm_num [fixed_point, fixedPointLoop, okId, Int.toNat]
  exact ⟨⟨h1, rfl, by norm_num, by norm_num⟩,
    napy_rerun_within_tolerance okId 0 1 0 0 4 3 h1 rfl (by norm_num) (by norm_num)⟩

/-- Claim C9: with a non-positive iteration budget the loop body never
runs, so the exhaustion branch reads the loop-local variable
(`mid_point` / `point_n`) before any assignment: `bisect` (on a valid
bracketing interval), `false_position`, `fixed_point` and `secant`
neither return a value nor raise a convergence failure — they fail with
the unbound-local error. -/
theorem napy_unbound_local (f : ℚ → ℚ) (g : ℚ → Except Err ℚ)
    (a b p0 p1 q0 tol : ℚ) (n : ℤ)
    (hn : n ≤ 0) (hab : a < b) (hsign : f a * f b < 0) :
    bisect f a b n tol = .error .unboundLocal
    ∧ false_position f p0 p1 n tol = .error .unboundLocal
    ∧ fixed_point g q0 n tol = .error .unboundLocal
    ∧ secant f p0 p1 n tol = .error .unboundLocal := by
  have h0 : n.toNat = 0 := Int.toNat_of_nonpos hn
  refine ⟨?_, ?_, ?_, ?_⟩
  · unfold bisect
    rw [if_neg (not_le.mpr hab), if_neg (not_le.mpr hsign), h0]
    rfl
  · unfold false_position
    rw [h0]
    rfl
  · unfold fixed_point
    rw [h0]
    rfl
  · unfold secant
    rw [h0]
    rfl

/-- Witness for C9 at budget `0` with a valid bracket for `bisect`. -/
theorem napy_unbound_local_witness :
    ((0 : ℤ) ≤ 0 ∧ (-1 : ℚ) < 1 ∧ (-1 : ℚ) * 1 < 0)
    ∧ (bisect (fun x : ℚ => x) (-1) 1 0 1 = .error .unboundLocal
      ∧ false_position (fun x : ℚ => x) 0 1 0 1 = .error .unboundLocal
      ∧ fixed_point okId 0 0 1 = .error .unboundLocal
      ∧ secant (fun x : ℚ => x) 0 1 0 1 = .error .unboundLocal) :=
  ⟨⟨le_refl 0, by norm_num, by norm_num⟩,
   napy_unbound_local (fun x => x) okId (-1) 1 0 1 0 1 0
     (le_refl 0) (by norm_num) (by norm_num)⟩

/-- Claim C10: `fixed_point` applies the iterated map at least once before
testing convergence: every value it returns is the image of some iterate
(it lies in the image of the map), and when the first iterate already
satisfies the tolerance the call returns `g(point_0)` — so at an exact
fixed point it returns `g(point_0)`, which there equals `point_0`. -/
theorem napy_fixed_point_image (g : ℚ → Except Err ℚ) (point_0 tol v r : ℚ) (n : ℤ) :
    (fixed_point g point_0 n tol = .ok r → ∃ x, g x = .ok r)
    ∧ (1 ≤ n → g point_0 = .ok v → |v - point_0| < tol →
        fixed_point g point_0 n tol = .ok v) :=
  ⟨fun h => fixedPointLoop_ok_image g tol n.toNat none point_0 r h,
   fun hn hg hv => fixed_point_first_iterate g point_0 tol v n hn hg hv⟩

/-- Witness for C10 with the identity map and seed `0` (an exact fixed
point): the call returns `g(0) = 0`, which is in the image of `g`. -/
theorem napy_fixed_point_image_witness :
    fixed_point okId 0 4 1 = .ok 0 ∧ ∃ x, okId x = .ok 0 := by
  have h1 : fixed_point okId 0 4 1 = .ok 0 :=
    (napy_fixed_point_image okId 0 1 0 0 4).2 (by norm_num) rfl (by norm_num)
  exact ⟨h1, (napy_fixed_point_image okId 0 1 0 0 4).1 h1⟩

end Napy
